import Mathlib

/-!
Verification of the FinGPT technical-indicator pipeline.

Shallow embedding of `app/technicals.py` and `app/market_data.py`.
Numeric cells are modelled as exact rationals (`ℚ`); a pandas `NaN` cell
is modelled as `none : Option ℚ`.  A column of an enriched frame is a
`List (Option ℚ)` aligned positionally with the bars.
-/

namespace FinGPT

/-- A calendar date, rendered `YYYY-MM-DD` as Python's `datetime.date.__str__`. -/
structure Date where
  year : ℕ
  month : ℕ
  day : ℕ
deriving DecidableEq, Repr

/-- One bar of the canonical OHLCV table produced by the data normalizer
(`market_data.fetch_ohlcv`): finite numeric prices and volume, valid date. -/
structure Bar where
  date : Date
  «open» : ℚ
  high : ℚ
  low : ℚ
  close : ℚ
  volume : ℚ
deriving DecidableEq, Repr

/-! ## Series utilities

`rollingMean s w m` embeds `s.rolling(window=w, min_periods=m).mean()`:
at index `i` the trailing window is the (history-clipped) slice of the
last `w` entries ending at `i`; the cell is defined when at least `m`
finite values lie in that window, and is then their arithmetic mean. -/

def rollingMean (s : List (Option ℚ)) (w m : ℕ) : List (Option ℚ) :=
  (List.range s.length).map (fun i =>
    let vals := ((s.take (i + 1)).drop (i + 1 - w)).filterMap id
    if m ≤ vals.length then some (vals.sum / (vals.length : ℚ)) else none)

/-- `s.rolling(window=w, min_periods=m).std()` (sample statistics, `ddof = 1`).
The standard deviation of `k ≥ 2` values is the square root of the sample
variance; since square roots leave `ℚ`, the cell carries the sample
variance (the square of the source's value).  Definedness — all any
claim inspects — is exactly the source's: at least `m` finite values in
the window and at least two observations (pandas yields `NaN` for the
sample deviation of a single observation). -/
def rollingVar (s : List (Option ℚ)) (w m : ℕ) : List (Option ℚ) :=
  (List.range s.length).map (fun i =>
    let vals := ((s.take (i + 1)).drop (i + 1 - w)).filterMap id
    let k := vals.length
    if m ≤ k ∧ 2 ≤ k then
      let mean := vals.sum / (k : ℚ)
      some ((vals.map (fun x => (x - mean) ^ 2)).sum / ((k : ℚ) - 1))
    else none)

/-- `s.ewm(span=span, adjust=False).mean()` on a gap-free series:
`E[0] = S[0]` and `E[i] = alpha * S[i] + (1 - alpha) * E[i-1]` with
`alpha = 2 / (span + 1)` — pandas' documented non-adjusted recurrence. -/
def ewmMean (s : List ℚ) (span : ℕ) : List ℚ :=
  let alpha : ℚ := 2 / ((span : ℚ) + 1)
  match s with
  | [] => []
  | x :: xs => xs.scanl (fun e y => alpha * y + (1 - alpha) * e) x

/-- `s.diff()`: `D[0]` undefined, `D[i] = S[i] - S[i-1]`. -/
def diff (s : List ℚ) : List (Option ℚ) :=
  match s with
  | [] => []
  | _ :: xs => none :: List.zipWith (fun a b => some (a - b)) xs s

/-- `s.pct_change()`: `R[0]` undefined, `R[i] = S[i] / S[i-1] - 1`, undefined
when `S[i-1] = 0` (an IEEE infinity in the source, which has no finite
rational counterpart; the spec's §4.1 convention). -/
def pct_change (s : List ℚ) : List (Option ℚ) :=
  match s with
  | [] => []
  | _ :: xs =>
      none :: List.zipWith (fun a b => if b = 0 then none else some (a / b - 1)) xs s

/-- Cell of a column at position `i` (undefined when out of range). -/
def cellAt (col : List (Option ℚ)) (i : ℕ) : Option ℚ :=
  (col[i]?).join

/-- Cell of a column at the last row (`row = frame.iloc[-1]`). -/
def lastCell (col : List (Option ℚ)) : Option ℚ :=
  col.getLast?.join

/-- Minimum of the values `x :: xs`. -/
def listMin (x : ℚ) (xs : List ℚ) : ℚ :=
  xs.foldl min x

/-- Maximum of the values `x :: xs`. -/
def listMax (x : ℚ) (xs : List ℚ) : ℚ :=
  xs.foldl max x

/-! ## Indicator engine (`app/technicals.py`) -/

/-- `1e-9`, the division guard of `_rsi` (the exact decimal the source
literal denotes). -/
def epsilon : ℚ := 1 / 1000000000

/-- `technicals._rsi`: simple-average RSI.  `delta = series.diff()`;
gains clip below at 0, losses are the clipped-negated deltas;
both are averaged over a `period`-wide window with
`min_periods = period`; `rs = avg_gain / (avg_loss + 1e-9)`;
`rsi = 100 - 100 / (1 + rs)`.  A cell is defined exactly when both
averages are (their windows have identical finite-value patterns). -/
def _rsi (series : List ℚ) (period : ℕ) : List (Option ℚ) :=
  let delta := diff series
  let gain := delta.map (Option.map (fun d => max d 0))
  let loss := delta.map (Option.map (fun d => max (-d) 0))
  let avg_gain := rollingMean gain period period
  let avg_loss := rollingMean loss period period
  List.zipWith
    (fun g l =>
      match g, l with
      | some g, some l => some (100 - 100 / (1 + g / (l + epsilon)))
      | _, _ => none)
    avg_gain avg_loss

/-- `technicals._macd`: fast and slow EMAs of the series, their difference
(the MACD line), the signal line (EMA of the MACD line), and the
histogram (MACD minus signal), returned as `(macd, signal_line, hist)`. -/
def _macd (series : List ℚ) (fast slow sig : ℕ) :
    List ℚ × List ℚ × List ℚ :=
  let ema_fast := ewmMean series fast
  let ema_slow := ewmMean series slow
  let macd := List.zipWith (fun a b => a - b) ema_fast ema_slow
  let signal_line := ewmMean macd sig
  let hist := List.zipWith (fun a b => a - b) macd signal_line
  (macd, signal_line, hist)

/-- The enriched table: the source bars plus the derived columns, each
aligned positionally with the bars. -/
structure EnrichedFrame where
  bars : List Bar
  sma_20 : List (Option ℚ)
  sma_50 : List (Option ℚ)
  ema_20 : List (Option ℚ)
  rsi_14 : List (Option ℚ)
  macd : List (Option ℚ)
  macd_signal : List (Option ℚ)
  macd_hist : List (Option ℚ)
  returns : List (Option ℚ)
  volatility_20 : List (Option ℚ)
deriving Repr

/-- `technicals.add_technical_indicators`: computes every derived column
from the close series of a copy of the input frame.  (`df.copy()` makes
the Python function non-mutating; here a pure function of the bar list.) -/
def add_technical_indicators (df : List Bar) : EnrichedFrame :=
  let close := df.map Bar.close
  let macd3 := _macd close 12 26 9
  let returns := pct_change close
  { bars := df
    sma_20 := rollingMean (close.map some) 20 5
    sma_50 := rollingMean (close.map some) 50 10
    ema_20 := (ewmMean close 20).map some
    rsi_14 := _rsi close 14
    macd := macd3.1.map some
    macd_signal := macd3.2.1.map some
    macd_hist := macd3.2.2.map some
    returns := returns
    volatility_20 := rollingVar returns 20 5 }

/-! ## Number formatting

Python's `f"{v:.df}"` on the exact decimal values exercised here:
round `v * 10^d` to an integer and print with `d` digits after the
point.  (Ties are rounded up; the float half-even tie case is never
exercised by an exact-decimal claim.) -/

/-- `toString n` left-padded with zeros to width `w`. -/
def padZeros (w : ℕ) (n : ℕ) : String :=
  let t := toString n
  String.mk (List.replicate (w - t.length) '0') ++ t

/-- Fixed-point rendering of a rational with `d` digits after the point. -/
def formatFixed (q : ℚ) (d : ℕ) : String :=
  let n : ℤ := (2 * q.num * (10 : ℤ) ^ d + (q.den : ℤ)).ediv (2 * (q.den : ℤ))
  let m := n.natAbs
  let core := toString (m / 10 ^ d) ++ "." ++ padZeros d (m % 10 ^ d)
  if n < 0 then "-" ++ core else core

/-- Rendering of a possibly-undefined cell (`f"{nan:.df}"` prints `nan`). -/
def formatOpt (o : Option ℚ) (d : ℕ) : String :=
  match o with
  | some v => formatFixed v d
  | none => "nan"

/-- Python `int(q)`: truncation toward zero. -/
def truncInt (q : ℚ) : ℤ :=
  q.num.tdiv (q.den : ℤ)

/-- `technicals.technical_snapshot_text`: at the last row, one fragment
per defined indicator in a fixed order (the MACD trio is one fragment,
emitted when the `macd` cell is defined), joined with a bar separator. -/
def technical_snapshot_text (e : EnrichedFrame) : String :=
  let row_sma20 := lastCell e.sma_20
  let row_sma50 := lastCell e.sma_50
  let row_ema20 := lastCell e.ema_20
  let row_rsi := lastCell e.rsi_14
  let row_macd := lastCell e.macd
  let row_vol := lastCell e.volatility_20
  let parts : List String :=
    (match row_sma20 with
     | some v => ["SMA20=" ++ formatFixed v 2]
     | none => []) ++
    (match row_sma50 with
     | some v => ["SMA50=" ++ formatFixed v 2]
     | none => []) ++
    (match row_ema20 with
     | some v => ["EMA20=" ++ formatFixed v 2]
     | none => []) ++
    (match row_rsi with
     | some v => ["RSI14=" ++ formatFixed v 1]
     | none => []) ++
    (match row_macd with
     | some v =>
         ["MACD=" ++ formatFixed v 4 ++ ", " ++
          "Signal=" ++ formatOpt (lastCell e.macd_signal) 4 ++ ", " ++
          "Hist=" ++ formatOpt (lastCell e.macd_hist) 4]
     | none => []) ++
    (match row_vol with
     | some v => ["20-day volatility=" ++ formatFixed v 4]
     | none => [])
  String.intercalate " | " parts

/-! ## Snapshot of the raw table (`app/market_data.py`) -/

/-- The error state of a zero-bar table: the sole engine-level failure of
the snapshot renderer (`df.iloc[-1]` on an empty frame). -/
inductive EmptyTableError where
  | emptyTable
deriving DecidableEq, Repr

/-- Rendering of one bar by `market_data.latest_snapshot_text`. -/
def snapshot_line (b : Bar) : String :=
  "Latest data for the instrument on " ++
    (padZeros 4 b.date.year ++ "-" ++ padZeros 2 b.date.month ++ "-" ++
     padZeros 2 b.date.day) ++ ":\n" ++
  "Open: " ++ formatFixed b.«open» 2 ++ ", High: " ++ formatFixed b.high 2 ++
  ", " ++ "Low: " ++ formatFixed b.low 2 ++ ", Close: " ++
  formatFixed b.close 2 ++ ", " ++ "Volume: " ++ toString (truncInt b.volume)

/-- `market_data.latest_snapshot_text`: renders the last bar; a zero-bar
table has no last bar and the lookup fails. -/
def latest_snapshot_text (df : List Bar) : Except EmptyTableError String :=
  match df.getLast? with
  | none => Except.error EmptyTableError.emptyTable
  | some last => Except.ok (snapshot_line last)

/-! ## Basic facts about the embedding -/

/-- Every derived column of an enriched frame is aligned 1:1 with its bars. -/
def wellFormed (e : EnrichedFrame) : Prop :=
  e.sma_20.length = e.bars.length ∧ e.sma_50.length = e.bars.length ∧
  e.ema_20.length = e.bars.length ∧ e.rsi_14.length = e.bars.length ∧
  e.macd.length = e.bars.length ∧ e.macd_signal.length = e.bars.length ∧
  e.macd_hist.length = e.bars.length ∧ e.returns.length = e.bars.length ∧
  e.volatility_20.length = e.bars.length

theorem length_rollingMean (s : List (Option ℚ)) (w m : ℕ) :
    (rollingMean s w m).length = s.length := by
  simp [rollingMean]

theorem length_rollingVar (s : List (Option ℚ)) (w m : ℕ) :
    (rollingVar s w m).length = s.length := by
  simp [rollingVar]

theorem length_ewmMean (s : List ℚ) (span : ℕ) :
    (ewmMean s span).length = s.length := by
  cases s <;> simp [ewmMean, List.length_scanl]

theorem length_diff (s : List ℚ) : (diff s).length = s.length := by
  cases s with
  | nil => rfl
  | cons x xs => simp [diff]

theorem length_pct_change (s : List ℚ) : (pct_change s).length = s.length := by
  cases s with
  | nil => rfl
  | cons x xs => simp [pct_change]

theorem length_rsi (s : List ℚ) (p : ℕ) : (_rsi s p).length = s.length := by
  simp [_rsi, length_rollingMean, length_diff]

theorem length_macd1 (s : List ℚ) (f sl sg : ℕ) :
    (_macd s f sl sg).1.length = s.length := by
  simp [_macd, length_ewmMean]

theorem length_macd2 (s : List ℚ) (f sl sg : ℕ) :
    (_macd s f sl sg).2.1.length = s.length := by
  simp [_macd, length_ewmMean]

theorem length_macd3 (s : List ℚ) (f sl sg : ℕ) :
    (_macd s f sl sg).2.2.length = s.length := by
  simp [_macd, length_ewmMean]

theorem add_technical_indicators_shape (df : List Bar) :
    (add_technical_indicators df).bars = df ∧
      wellFormed (add_technical_indicators df) := by
  refine ⟨rfl, ?_⟩
  simp [wellFormed, add_technical_indicators, length_rollingMean,
    length_rollingVar, length_ewmMean, length_rsi, length_macd1,
    length_macd2, length_macd3, length_pct_change]

theorem cellAt_map_some (l : List ℚ) (i : ℕ) :
    cellAt (l.map some) i = l[i]? := by
  rw [cellAt, List.getElem?_map]
  cases l[i]? <;> rfl

theorem rollingMean_getElem? (s : List (Option ℚ)) (w m i : ℕ)
    (hi : i < s.length) :
    (rollingMean s w m)[i]? =
      some (if m ≤ (((s.take (i + 1)).drop (i + 1 - w)).filterMap id).length
            then some ((((s.take (i + 1)).drop (i + 1 - w)).filterMap id).sum /
              (((((s.take (i + 1)).drop (i + 1 - w)).filterMap id).length : ℕ) : ℚ))
            else none) := by
  rw [rollingMean, List.getElem?_map, List.getElem?_range hi]
  rfl

theorem rollingMean_map_some_getElem? (close : List ℚ) (w m i : ℕ)
    (hi : i < close.length) :
    (rollingMean (close.map some) w m)[i]? =
      some (if m ≤ ((close.take (i + 1)).drop (i + 1 - w)).length
            then some (((close.take (i + 1)).drop (i + 1 - w)).sum /
              ((((close.take (i + 1)).drop (i + 1 - w)).length : ℕ) : ℚ))
            else none) := by
  have hi' : i < (close.map some).length := by simpa using hi
  rw [rollingMean_getElem? (close.map some) w m i hi']
  simp [← List.map_take, ← List.map_drop, List.filterMap_map,
    Function.comp, List.filterMap_some]

theorem scanl_getElem?_zero {α β : Type} (f : β → α → β) (b : β) (l : List α) :
    (List.scanl f b l)[0]? = some b := by
  cases l <;> simp [List.scanl]

theorem scanl_getElem?_succ {α β : Type} (f : β → α → β) (b : β) (l : List α)
    (i : ℕ) :
    (List.scanl f b l)[i + 1]? =
      ((List.scanl f b l)[i]?).bind (fun e => Option.map (f e) l[i]?) := by
  induction l generalizing b i with
  | nil => cases i <;> rfl
  | cons y ys ih =>
      cases i with
      | zero => simp [List.scanl, scanl_getElem?_zero]
      | succ j => simpa [List.scanl] using ih (f b y) j

theorem ewmMean_getElem?_zero (x : ℚ) (xs : List ℚ) (span : ℕ) :
    (ewmMean (x :: xs) span)[0]? = some x := by
  simp [ewmMean, scanl_getElem?_zero]

theorem ewmMean_getElem?_succ (x : ℚ) (xs : List ℚ) (span i : ℕ) :
    (ewmMean (x :: xs) span)[i + 1]? =
      ((ewmMean (x :: xs) span)[i]?).bind (fun e =>
        Option.map
          (fun y => 2 / ((span : ℚ) + 1) * y + (1 - 2 / ((span : ℚ) + 1)) * e)
          xs[i]?) := by
  simp only [ewmMean, scanl_getElem?_succ]

theorem foldl_min_le_seed (x : ℚ) (l : List ℚ) : l.foldl min x ≤ x := by
  induction l generalizing x with
  | nil => exact le_refl x
  | cons y ys ih => exact le_trans (ih (min x y)) (min_le_left x y)

theorem seed_le_foldl_max (x : ℚ) (l : List ℚ) : x ≤ l.foldl max x := by
  induction l generalizing x with
  | nil => exact le_refl x
  | cons y ys ih => exact le_trans (le_max_left x y) (ih (max x y))

theorem foldl_min_mono (x y : ℚ) (h : x ≤ y) (l : List ℚ) :
    l.foldl min x ≤ l.foldl min y := by
  induction l generalizing x y with
  | nil => exact h
  | cons z zs ih => exact ih _ _ (min_le_min_right z h)

theorem foldl_max_mono (x y : ℚ) (h : x ≤ y) (l : List ℚ) :
    l.foldl max x ≤ l.foldl max y := by
  induction l generalizing x y with
  | nil => exact h
  | cons z zs ih => exact ih _ _ (max_le_max_right z h)

/-- One non-adjusted EWM step is a convex combination of the previous
state and the new observation, so it stays above their minimum. -/
theorem min_le_convex_step (α x y : ℚ) (h0 : 0 ≤ α) (h1 : α ≤ 1) :
    min x y ≤ α * y + (1 - α) * x := by
  have hy := mul_le_mul_of_nonneg_left (min_le_right x y) h0
  have hx := mul_le_mul_of_nonneg_left (min_le_left x y) (by linarith : (0:ℚ) ≤ 1 - α)
  nlinarith

theorem convex_step_le_max (α x y : ℚ) (h0 : 0 ≤ α) (h1 : α ≤ 1) :
    α * y + (1 - α) * x ≤ max x y := by
  have hy := mul_le_mul_of_nonneg_left (le_max_right x y) h0
  have hx := mul_le_mul_of_nonneg_left (le_max_left x y) (by linarith : (0:ℚ) ≤ 1 - α)
  nlinarith

/-- Every state of the non-adjusted EWM recursion lies between the minimum
and the maximum of the observations seen so far. -/
theorem scanl_convex_bounds (α : ℚ) (h0 : 0 ≤ α) (h1 : α ≤ 1) :
    ∀ (xs : List ℚ) (x : ℚ) (i : ℕ) (v : ℚ),
      (List.scanl (fun e y => α * y + (1 - α) * e) x xs)[i]? = some v →
      listMin x (xs.take i) ≤ v ∧ v ≤ listMax x (xs.take i) := by
  intro xs
  induction xs with
  | nil =>
      intro x i v hv
      cases i with
      | zero =>
          have hx : x = v := by simpa [List.scanl] using hv
          subst hx
          simp [listMin, listMax]
      | succ j => simp [List.scanl] at hv
  | cons y ys ih =>
      intro x i v hv
      cases i with
      | zero =>
          have hx : x = v := by simpa [List.scanl] using hv
          subst hx
          simp [listMin, listMax]
      | succ j =>
          have hb := ih (α * y + (1 - α) * x) j v (by simpa [List.scanl] using hv)
          have hmin : min x y ≤ α * y + (1 - α) * x := min_le_convex_step α x y h0 h1
          have hmax : α * y + (1 - α) * x ≤ max x y := convex_step_le_max α x y h0 h1
          constructor
          · calc listMin x ((y :: ys).take (j + 1))
                = (ys.take j).foldl min (min x y) := by simp [listMin, List.foldl]
              _ ≤ (ys.take j).foldl min (α * y + (1 - α) * x) :=
                  foldl_min_mono _ _ hmin _
              _ ≤ v := hb.1
          · calc v ≤ (ys.take j).foldl max (α * y + (1 - α) * x) := hb.2
              _ ≤ (ys.take j).foldl max (max x y) := foldl_max_mono _ _ hmax _
              _ = listMax x ((y :: ys).take (j + 1)) := by simp [listMax, List.foldl]

/-- `ewmMean` over a non-empty series is bounded by the running minimum and
maximum of its inputs, for every span the engine uses (`span ≥ 1`). -/
theorem ewmMean_bounds (x : ℚ) (xs : List ℚ) (span i : ℕ) (v : ℚ)
    (hspan : 1 ≤ span) (hv : (ewmMean (x :: xs) span)[i]? = some v) :
    listMin x (xs.take i) ≤ v ∧ v ≤ listMax x (xs.take i) := by
  have hpos : (0 : ℚ) < (span : ℚ) + 1 := by positivity
  have h0 : (0 : ℚ) ≤ 2 / ((span : ℚ) + 1) := by positivity
  have h1 : 2 / ((span : ℚ) + 1) ≤ 1 := by
    rw [div_le_one hpos]
    have : (1 : ℚ) ≤ (span : ℚ) := by exact_mod_cast hspan
    linarith
  exact scanl_convex_bounds (2 / ((span : ℚ) + 1)) h0 h1 xs x i v
    (by simpa [ewmMean] using hv)

/-- A cell of a rolling mean over a series whose defined entries are all
non-negative is non-negative. -/
theorem rollingMean_cell_nonneg (s : List (Option ℚ)) (w m i : ℕ) (g : ℚ)
    (hs : ∀ o ∈ s, ∀ x, o = some x → 0 ≤ x)
    (hg : (rollingMean s w m)[i]? = some (some g)) : 0 ≤ g := by
  have hi : i < s.length := by
    have h1 := (List.getElem?_eq_some_iff.mp hg).1
    rwa [length_rollingMean] at h1
  rw [rollingMean_getElem? s w m i hi] at hg
  have hg2 := Option.some.inj hg
  split_ifs at hg2 with hc
  have hgv := (Option.some.inj hg2).symm
  rw [hgv]
  apply div_nonneg
  · apply List.sum_nonneg
    intro q hq
    obtain ⟨o, ho, hoq⟩ := List.mem_filterMap.mp hq
    exact hs o (List.mem_of_mem_take (List.mem_of_mem_drop ho)) q hoq
  · positivity

/-! ## The claims -/

def bars3 : List Bar :=
  [{ date := ⟨2024, 1, 2⟩, «open» := 100, high := 100, low := 100, close := 100,
     volume := 10 },
   { date := ⟨2024, 1, 3⟩, «open» := 100, high := 100, low := 100, close := 100,
     volume := 10 },
   { date := ⟨2024, 1, 4⟩, «open» := 100, high := 100, low := 100, close := 100,
     volume := 10 }]

/-- C1 (counterexample): on a 3-bar table not every indicator is undefined —
`ema_20` and the MACD trio self-seed from index 0 — so
`technical_snapshot_text` returns a non-empty string, refuting the claim
that a 3-bar table yields the empty string. -/
theorem c1_three_bar_snapshot_nonempty :
    technical_snapshot_text (add_technical_indicators bars3) =
        "EMA20=100.00 | MACD=0.0000, Signal=0.0000, Hist=0.0000" ∧
      technical_snapshot_text (add_technical_indicators bars3) ≠ "" := by
  have hs : technical_snapshot_text (add_technical_indicators bars3) =
      "EMA20=100.00 | MACD=0.0000, Signal=0.0000, Hist=0.0000" := by
    simp only [technical_snapshot_text, add_technical_indicators, _macd, _rsi,
      ewmMean, rollingMean, rollingVar, pct_change, diff, lastCell, List.scanl,
      bars3, List.map, List.zipWith, List.range, List.range.loop, List.take,
      List.drop, List.filterMap, List.length, List.getLast?]
    norm_num
    rfl
  exact ⟨hs, by rw [hs]; decide⟩

/-- C1 (amended): whenever every indicator inspected by the renderer
(`sma_20`, `sma_50`, `ema_20`, `rsi_14`, `macd`, `volatility_20`) is
undefined at the last row of a non-empty enriched table,
`technical_snapshot_text` returns the empty string, not an error. -/
theorem c1_all_undefined_snapshot_empty (e : EnrichedFrame)
    (_hne : e.bars ≠ [])
    (h1 : lastCell e.sma_20 = none) (h2 : lastCell e.sma_50 = none)
    (h3 : lastCell e.ema_20 = none) (h4 : lastCell e.rsi_14 = none)
    (h5 : lastCell e.macd = none) (h6 : lastCell e.volatility_20 = none) :
    technical_snapshot_text e = "" := by
  simp [technical_snapshot_text, h1, h2, h3, h4, h5, h6, String.intercalate]

def c1bar : Bar :=
  { date := ⟨2024, 2, 1⟩, «open» := 1, high := 1, low := 1, close := 1,
    volume := 1 }

def c1frame : EnrichedFrame :=
  { bars := [c1bar], sma_20 := [none], sma_50 := [none], ema_20 := [none],
    rsi_14 := [none], macd := [none], macd_signal := [none],
    macd_hist := [none], returns := [none], volatility_20 := [none] }

/-- C1 (witness): the amended theorem applied to a concrete one-row frame
with every indicator undefined. -/
theorem c1_all_undefined_snapshot_empty_witness :
    c1frame.bars ≠ [] ∧ lastCell c1frame.sma_20 = none ∧
      lastCell c1frame.sma_50 = none ∧ lastCell c1frame.ema_20 = none ∧
      lastCell c1frame.rsi_14 = none ∧ lastCell c1frame.macd = none ∧
      lastCell c1frame.volatility_20 = none ∧
      technical_snapshot_text c1frame = "" :=
  ⟨by decide, rfl, rfl, rfl, rfl, rfl, rfl,
    c1_all_undefined_snapshot_empty c1frame (by decide)
      rfl rfl rfl rfl rfl rfl⟩

/-- C6: on a table with fewer than 2 bars the engine still returns a
well-formed enriched table carrying the source bars, in which the
`returns`, `rsi_14` and `volatility_20` columns are undefined at every
row — never coerced to zero, never an error (the function is total). -/
theorem c6_short_table_degrades (df : List Bar) (h : df.length < 2) :
    (∀ o ∈ (add_technical_indicators df).returns, o = none) ∧
      (∀ o ∈ (add_technical_indicators df).rsi_14, o = none) ∧
      (∀ o ∈ (add_technical_indicators df).volatility_20, o = none) ∧
      (add_technical_indicators df).bars = df ∧
      wellFormed (add_technical_indicators df) := by
  refine ⟨?_, ?_, ?_, (add_technical_indicators_shape df).1,
    (add_technical_indicators_shape df).2⟩ <;>
  · match df, h with
    | [], _ =>
        simp [add_technical_indicators, pct_change, _rsi, diff, rollingMean,
          rollingVar, _macd, ewmMean]
    | [b], _ =>
        simp [add_technical_indicators, pct_change, _rsi, diff, rollingMean,
          rollingVar, _macd, ewmMean, List.range_succ]

def c6bar : Bar :=
  { date := ⟨2024, 4, 1⟩, «open» := 7, high := 8, low := 6, close := 7,
    volume := 20 }

/-- C6 (witness): the theorem applied to a concrete one-bar table. -/
theorem c6_short_table_degrades_witness :
    [c6bar].length < 2 ∧
      ((∀ o ∈ (add_technical_indicators [c6bar]).returns, o = none) ∧
        (∀ o ∈ (add_technical_indicators [c6bar]).rsi_14, o = none) ∧
        (∀ o ∈ (add_technical_indicators [c6bar]).volatility_20, o = none) ∧
        (add_technical_indicators [c6bar]).bars = [c6bar] ∧
        wellFormed (add_technical_indicators [c6bar])) :=
  ⟨by decide, c6_short_table_degrades [c6bar] (by decide)⟩

/-- C7: `latest_snapshot_text` fails — with the empty-table error, its only
failure — exactly on a zero-bar table, and on any table with a last bar it
succeeds with the rendering of that bar. -/
theorem c7_snapshot_error_iff_empty (df : List Bar) :
    (latest_snapshot_text df = Except.error EmptyTableError.emptyTable ↔
        df = []) ∧
      ∀ b, df.getLast? = some b →
        latest_snapshot_text df = Except.ok (snapshot_line b) := by
  constructor
  · constructor
    · intro h
      cases hl : df.getLast? with
      | none => exact List.getLast?_eq_none_iff.mp hl
      | some b => simp [latest_snapshot_text, hl] at h
    · intro h
      subst h
      rfl
  · intro b hb
    simp [latest_snapshot_text, hb]

def c7bar : Bar :=
  { date := ⟨2024, 3, 5⟩, «open» := 10, high := 12, low := 9, close := 11,
    volume := 500 }

/-- C7 (witness): the theorem applied to a concrete one-bar table. -/
theorem c7_snapshot_error_iff_empty_witness :
    [c7bar].getLast? = some c7bar ∧
      latest_snapshot_text [c7bar] = Except.ok (snapshot_line c7bar) :=
  ⟨rfl, (c7_snapshot_error_iff_empty [c7bar]).2 c7bar rfl⟩

def c8bar : Bar :=
  { date := ⟨2024, 1, 2⟩, «open» := 100, high := 105, low := 99, close := 103,
    volume := 1000 }

/-- C8 (counterexample): the rendered snapshot is not the claimed string —
the source emits a newline after the date's colon, not a space. -/
theorem c8_claimed_string_wrong :
    latest_snapshot_text [c8bar] ≠
      Except.ok ("Latest data for the instrument on 2024-01-02: Open: 100.00, High: 105.00, Low: 99.00, Close: 103.00, Volume: 1000") := by
  intro h
  have h2 : snapshot_line c8bar =
      "Latest data for the instrument on 2024-01-02: Open: 100.00, High: 105.00, Low: 99.00, Close: 103.00, Volume: 1000" :=
    Except.ok.inj h
  exact absurd h2 (by decide)

/-- C8 (amended): on the single-bar table
`{date: 2024-01-02, open: 100, high: 105, low: 99, close: 103, volume: 1000}`
the snapshot is exactly the claimed text with a newline (not a space)
separating the date line from the price line: prices to 2 decimals,
volume as an integer. -/
theorem c8_single_bar_snapshot :
    latest_snapshot_text [c8bar] =
      Except.ok ("Latest data for the instrument on 2024-01-02:\nOpen: 100.00, High: 105.00, Low: 99.00, Close: 103.00, Volume: 1000") :=
  rfl

/-- C9: the indicator engine is a pure function of its input frame: the
enriched table carries the source bars unchanged (the original
date/open/high/low/close/volume columns and the row count), and every
derived column is aligned 1:1 with the bars.  (The Python function starts
from `df.copy()` and only ever assigns new columns of the copy, so the
source frame is untouched; in this pure embedding non-mutation is by
construction and the content preservation is the statement below.) -/
theorem c9_engine_preserves_input (df : List Bar) :
    (add_technical_indicators df).bars = df ∧
      wellFormed (add_technical_indicators df) :=
  add_technical_indicators_shape df

/-- C2: on any table of at least 50 bars (gap-free by construction: every
bar carries a rational close), `sma_20[i]` for `i ≥ 19` is the arithmetic
mean of the 20 closes `close[i-19..i]`, and the cell is defined exactly
from index 4 on (`min_periods = 5` over the history-clipped window). -/
theorem c2_sma20_mean_and_warmup (df : List Bar) (_h50 : 50 ≤ df.length) :
    (∀ i, 19 ≤ i → i < df.length →
        cellAt (add_technical_indicators df).sma_20 i =
          some ((((df.map Bar.close).take (i + 1)).drop (i - 19)).sum / 20)) ∧
      (∀ i, i < df.length →
        ((cellAt (add_technical_indicators df).sma_20 i).isSome ↔ 4 ≤ i)) := by
  have hclen : (df.map Bar.close).length = df.length := by simp
  constructor
  · intro i h19 hin
    have hi : i < (df.map Bar.close).length := by rw [hclen]; exact hin
    have hcol : (add_technical_indicators df).sma_20 =
        rollingMean ((df.map Bar.close).map some) 20 5 := rfl
    rw [cellAt, hcol, rollingMean_map_some_getElem? _ 20 5 i hi]
    have he : i + 1 - 20 = i - 19 := by omega
    rw [he]
    have hlen2 : (((df.map Bar.close).take (i + 1)).drop (i - 19)).length = 20 := by
      rw [List.length_drop, List.length_take]
      omega
    rw [hlen2]
    norm_num
  · intro i hin
    have hi : i < (df.map Bar.close).length := by rw [hclen]; exact hin
    have hcol : (add_technical_indicators df).sma_20 =
        rollingMean ((df.map Bar.close).map some) 20 5 := rfl
    rw [cellAt, hcol, rollingMean_map_some_getElem? _ 20 5 i hi]
    have hlen2 : (((df.map Bar.close).take (i + 1)).drop (i + 1 - 20)).length =
        i + 1 - (i + 1 - 20) := by
      rw [List.length_drop, List.length_take]
      omega
    rw [hlen2]
    split_ifs with hc
    · have h4 : 4 ≤ i := by omega
      simp [h4]
    · have h4 : ¬ 4 ≤ i := by omega
      simp [h4]

def c2bar : Bar :=
  { date := ⟨2024, 5, 1⟩, «open» := 3, high := 4, low := 2, close := 3,
    volume := 30 }

/-- C2 (witness): the theorem applied at index 19 of a concrete 50-bar
table. -/
theorem c2_sma20_mean_and_warmup_witness :
    50 ≤ (List.replicate 50 c2bar).length ∧ 19 ≤ 19 ∧
      19 < (List.replicate 50 c2bar).length ∧
      cellAt (add_technical_indicators (List.replicate 50 c2bar)).sma_20 19 =
        some (((((List.replicate 50 c2bar).map Bar.close).take 20).drop 0).sum
          / 20) :=
  ⟨by decide, by decide, by decide,
    (c2_sma20_mean_and_warmup (List.replicate 50 c2bar) (by decide)).1 19
      (by decide) (by decide)⟩

/-- C3: on any non-empty table, `ema_20` seeds with `close[0]` exactly,
obeys the recurrence `ema[i+1] = alpha*close[i+1] + (1-alpha)*ema[i]` with
`alpha = 2/21`, and is defined at every index from 0 on. -/
theorem c3_ema20_seed_recurrence_defined (df : List Bar) (hne : df ≠ []) :
    cellAt (add_technical_indicators df).ema_20 0 = (df.map Bar.close)[0]? ∧
      (∀ i p v, cellAt (add_technical_indicators df).ema_20 i = some p →
        (df.map Bar.close)[i + 1]? = some v →
        cellAt (add_technical_indicators df).ema_20 (i + 1) =
          some (2 / 21 * v + (1 - 2 / 21) * p)) ∧
      (∀ i, i < df.length →
        ((cellAt (add_technical_indicators df).ema_20 i).isSome)) := by
  have hcol : (add_technical_indicators df).ema_20 =
      (ewmMean (df.map Bar.close) 20).map some := rfl
  match df, hne with
  | b :: tl, _ =>
    have hmap : (b :: tl).map Bar.close = b.close :: tl.map Bar.close := rfl
    refine ⟨?_, ?_, ?_⟩
    · rw [hcol, cellAt_map_some, hmap, ewmMean_getElem?_zero]
      simp
    · intro i p v hp hv
      rw [hcol, cellAt_map_some, hmap] at hp ⊢
      rw [hmap] at hv
      have hv' : (tl.map Bar.close)[i]? = some v := by simpa using hv
      rw [ewmMean_getElem?_succ, hp, hv']
      norm_num
    · intro i hi
      rw [hcol, cellAt_map_some]
      have hlt : i < (ewmMean ((b :: tl).map Bar.close) 20).length := by
        rw [length_ewmMean]
        simpa using hi
      rw [List.getElem?_eq_getElem hlt]
      rfl

def c3bars : List Bar :=
  [{ date := ⟨2024, 6, 3⟩, «open» := 1, high := 2, low := 1, close := 1,
     volume := 5 },
   { date := ⟨2024, 6, 4⟩, «open» := 2, high := 3, low := 1, close := 2,
     volume := 6 }]

/-- C3 (witness): the seed clause of the theorem at a concrete 2-bar
table. -/
theorem c3_ema20_seed_recurrence_defined_witness :
    c3bars ≠ [] ∧
      cellAt (add_technical_indicators c3bars).ema_20 0 =
        (c3bars.map Bar.close)[0]? :=
  ⟨by decide, (c3_ema20_seed_recurrence_defined c3bars (by decide)).1⟩

/-- C4: every defined cell of the `rsi_14` column lies in `[0, 100]`;
in fact it is strictly below 100, because the division is guarded by
`epsilon = 1e-9` and `avg_gain / (avg_loss + epsilon)` is finite and
non-negative even when `avg_loss = 0`. -/
theorem c4_rsi_range (df : List Bar) (i : ℕ) (r : ℚ)
    (h : cellAt (add_technical_indicators df).rsi_14 i = some r) :
    0 ≤ r ∧ r < 100 := by
  have h' : (_rsi (df.map Bar.close) 14)[i]? = some (some r) :=
    Option.join_eq_some.mp h
  simp only [_rsi] at h'
  rw [List.getElem?_zipWith_eq_some] at h'
  obtain ⟨x, y, hx, hy, hxy⟩ := h'
  match x, y, hx, hy, hxy with
  | none, _, hx, hy, hxy => exact absurd hxy (by simp)
  | some g, none, hx, hy, hxy => exact absurd hxy (by simp)
  | some g, some l, hx, hy, hxy =>
    have hg0 : 0 ≤ g := by
      refine rollingMean_cell_nonneg _ 14 14 i g ?_ hx
      intro o ho z hoz
      obtain ⟨d?, _, rfl⟩ := List.mem_map.mp ho
      match d?, hoz with
      | some d, hoz =>
        have hz : z = max d 0 := (Option.some.inj hoz).symm
        rw [hz]
        exact le_max_right d 0
    have hl0 : 0 ≤ l := by
      refine rollingMean_cell_nonneg _ 14 14 i l ?_ hy
      intro o ho z hoz
      obtain ⟨d?, _, rfl⟩ := List.mem_map.mp ho
      match d?, hoz with
      | some d, hoz =>
        have hz : z = max (-d) 0 := (Option.some.inj hoz).symm
        rw [hz]
        exact le_max_right (-d) 0
    have hrr : r = 100 - 100 / (1 + g / (l + epsilon)) :=
      (Option.some.inj hxy).symm
    have heps : (0 : ℚ) < epsilon := by norm_num [epsilon]
    have hlp : (0 : ℚ) < l + epsilon := by linarith
    have hrs : (0 : ℚ) ≤ g / (l + epsilon) := div_nonneg hg0 hlp.le
    have hden : (0 : ℚ) < 1 + g / (l + epsilon) := by linarith
    have hub : 100 / (1 + g / (l + epsilon)) ≤ 100 :=
      div_le_self (by norm_num) (by linarith)
    have hlb : (0 : ℚ) < 100 / (1 + g / (l + epsilon)) := by positivity
    constructor
    · linarith [hrr]
    · rw [hrr]
      linarith

def c4bar : Bar :=
  { date := ⟨2024, 8, 1⟩, «open» := 1, high := 1, low := 1, close := 1,
    volume := 2 }

set_option maxRecDepth 20000 in
/-- C4 (witness): the theorem applied at index 14 of a concrete 15-bar
table of constant closes, where the RSI evaluates to 0. -/
theorem c4_rsi_range_witness :
    cellAt (add_technical_indicators (List.replicate 15 c4bar)).rsi_14 14 =
        some 0 ∧ (0 ≤ (0 : ℚ) ∧ (0 : ℚ) < 100) := by
  have h : cellAt (add_technical_indicators (List.replicate 15 c4bar)).rsi_14
      14 = some 0 := by
    simp only [cellAt, add_technical_indicators, _rsi, rollingMean, diff,
      List.replicate, List.map, List.zipWith, List.range, List.range.loop,
      List.take, List.drop, List.filterMap, List.length,
      Option.map, Option.join]
    norm_num
  exact ⟨h, c4_rsi_range (List.replicate 15 c4bar) 14 0 h⟩

/-- C5: at every in-range index the three MACD cells are defined (all three
columns self-seed from index 0) and satisfy `macd_hist = macd - macd_signal`
exactly. -/
theorem c5_macd_hist_identity (df : List Bar) (i : ℕ) (hi : i < df.length) :
    ∃ m s, cellAt (add_technical_indicators df).macd i = some m ∧
      cellAt (add_technical_indicators df).macd_signal i = some s ∧
      cellAt (add_technical_indicators df).macd_hist i = some (m - s) := by
  have h1 : i < (_macd (df.map Bar.close) 12 26 9).1.length := by
    rw [length_macd1]
    simpa using hi
  have h2 : i < (_macd (df.map Bar.close) 12 26 9).2.1.length := by
    rw [length_macd2]
    simpa using hi
  refine ⟨(_macd (df.map Bar.close) 12 26 9).1.get ⟨i, h1⟩,
    (_macd (df.map Bar.close) 12 26 9).2.1.get ⟨i, h2⟩, ?_, ?_, ?_⟩
  · have hc : (add_technical_indicators df).macd =
        (_macd (df.map Bar.close) 12 26 9).1.map some := rfl
    rw [hc, cellAt_map_some]
    simp [List.getElem?_eq_getElem h1]
  · have hc : (add_technical_indicators df).macd_signal =
        (_macd (df.map Bar.close) 12 26 9).2.1.map some := rfl
    rw [hc, cellAt_map_some]
    simp [List.getElem?_eq_getElem h2]
  · have hc : (add_technical_indicators df).macd_hist =
        (_macd (df.map Bar.close) 12 26 9).2.2.map some := rfl
    have hz : (_macd (df.map Bar.close) 12 26 9).2.2 =
        List.zipWith (fun a b => a - b) (_macd (df.map Bar.close) 12 26 9).1
          (_macd (df.map Bar.close) 12 26 9).2.1 := rfl
    rw [hc, cellAt_map_some, hz, List.getElem?_zipWith]
    simp [List.getElem?_eq_getElem h1, List.getElem?_eq_getElem h2]

def c5bar : Bar :=
  { date := ⟨2024, 7, 1⟩, «open» := 9, high := 10, low := 8, close := 9,
    volume := 40 }

/-- C5 (witness): the theorem applied at index 0 of a concrete one-bar
table. -/
theorem c5_macd_hist_identity_witness :
    0 < ([c5bar] : List Bar).length ∧
      ∃ m s, cellAt (add_technical_indicators [c5bar]).macd 0 = some m ∧
        cellAt (add_technical_indicators [c5bar]).macd_signal 0 = some s ∧
        cellAt (add_technical_indicators [c5bar]).macd_hist 0 = some (m - s) :=
  ⟨by decide, c5_macd_hist_identity [c5bar] 0 (by decide)⟩

/-- C10: every non-adjusted EWM the engine computes is a running convex
combination of its inputs: each state lies between the minimum and the
maximum of the inputs seen so far.  Stated for `ewmMean` at any span ≥ 1
(which covers `ema_fast = ewmMean close 12` and `ema_slow = ewmMean close 26`
inside `_macd` verbatim), and instantiated for the `ema_20` column and for
`macd_signal` (the span-9 EWM of the MACD line). -/
theorem c10_ewm_convex_bounds :
    (∀ (x : ℚ) (xs : List ℚ) (span i : ℕ) (v : ℚ), 1 ≤ span →
        (ewmMean (x :: xs) span)[i]? = some v →
        listMin x (xs.take i) ≤ v ∧ v ≤ listMax x (xs.take i)) ∧
      (∀ (df : List Bar) (c : ℚ) (cs : List ℚ) (i : ℕ) (v : ℚ),
        df.map Bar.close = c :: cs →
        cellAt (add_technical_indicators df).ema_20 i = some v →
        listMin c (cs.take i) ≤ v ∧ v ≤ listMax c (cs.take i)) ∧
      (∀ (df : List Bar) (m0 : ℚ) (ms : List ℚ) (i : ℕ) (v : ℚ),
        (_macd (df.map Bar.close) 12 26 9).1 = m0 :: ms →
        cellAt (add_technical_indicators df).macd_signal i = some v →
        listMin m0 (ms.take i) ≤ v ∧ v ≤ listMax m0 (ms.take i)) := by
  refine ⟨fun x xs span i v hs hv => ewmMean_bounds x xs span i v hs hv,
    ?_, ?_⟩
  · intro df c cs i v hmap hv
    rw [show (add_technical_indicators df).ema_20 =
        (ewmMean (df.map Bar.close) 20).map some from rfl,
      cellAt_map_some, hmap] at hv
    exact ewmMean_bounds c cs 20 i v (by norm_num) hv
  · intro df m0 ms i v hmap hv
    rw [show (add_technical_indicators df).macd_signal =
        (ewmMean (_macd (df.map Bar.close) 12 26 9).1 9).map some from rfl,
      cellAt_map_some, hmap] at hv
    exact ewmMean_bounds m0 ms 9 i v (by norm_num) hv

/-- C10 (witness): the general clause applied to the one-element series
`[5]` at span 20, index 0. -/
theorem c10_ewm_convex_bounds_witness :
    1 ≤ 20 ∧
      (listMin 5 (List.take 0 ([] : List ℚ)) ≤ 5 ∧
        (5 : ℚ) ≤ listMax 5 (List.take 0 ([] : List ℚ))) :=
  ⟨by decide,
    c10_ewm_convex_bounds.1 5 [] 20 0 5 (by decide)
      (by simp [ewmMean, scanl_getElem?_zero])⟩

end FinGPT
